import Mathlib

/-!
Shallow embedding of the `nepse-analysis` repository
(`src/nepse_analysis/utils.py` and `src/nepse_analysis/nepse.py`),
together with theorems settling the frozen claims about it.

Conventions used throughout:
* Python non-negative integers are `Nat`; Python `//` is `Nat.div`,
  `%` is `Nat.mod`, `<<` is `Nat.shiftLeft`, `&` is `Nat.land`.
* Python strings are `List Char`; `s[a:b]` with non-negative bounds is
  `(s.take b).drop a` (Python slicing clamps, never fails).
* A Python `dict` (insertion-ordered, unique keys) is an association
  list updated at the first occurrence of a key.
* Python list indexing `xs[i]`, which raises `IndexError` out of
  bounds, is `xs[i]?` returning `Option`.
-/

set_option maxRecDepth 8000

namespace NepseAnalysis

namespace TokenParser

/-- The static lookup table `TokenParser.data` from
`src/nepse_analysis/utils.py` (157 entries, transcribed verbatim). -/
def data : List Nat :=
  [9, 0, 0, 0, 8, 0, 0, 0, 4, 0, 0, 0,
   1, 0, 0, 0, 2, 0, 0, 0, 3, 0, 0, 0,
   2, 0, 0, 0, 5, 0, 0, 0, 8, 0, 0, 0,
   7, 0, 0, 0, 9, 0, 0, 0, 8, 0, 0, 0,
   0, 0, 0, 0, 3, 0, 0, 0, 1, 0, 0, 0,
   2, 0, 0, 0, 2, 0, 0, 0, 4, 0, 0, 0,
   3, 0, 0, 0, 0, 0, 0, 0, 1, 0, 0, 0,
   9, 0, 0, 0, 5, 0, 0, 0, 4, 0, 0, 0,
   6, 0, 0, 0, 3, 0, 0, 0, 7, 0, 0, 0,
   2, 0, 0, 0, 1, 0, 0, 0, 6, 0, 0, 0,
   9, 0, 0, 0, 8, 0, 0, 0, 4, 0, 0, 0,
   1, 0, 0, 0, 2, 0, 0, 0, 2, 0, 0, 0,
   3, 0, 0, 0, 3, 0, 0, 0, 4, 0, 0, 0,
   4]

/-- `TokenParser.cdx` (`utils.py` lines 99-126), translated assignment
by assignment from the decompiled straight-line code; shadowing `let`s
mirror the reassignments of `w2c_p0`, `w2c_i0`, `w2c_i1`, `w2c_i2`.
The final table lookup is Python list indexing, hence `Option`. -/
def cdx? (p0 p1 : Nat) : Option Nat :=
  let i0 := p1
  let i0 := i0 / 10
  let p0 := i0
  let i0 := i0 % 10
  let i1 := p1
  let i2 := p0
  let i2 := i2 * 10
  let i1 := i1 - i2
  let i0 := i0 + i1
  let i1 := p1 / 100
  let i1 := i1 % 10
  let i0 := i0 + i1
  let i0 := i0 <<< (2 &&& 31)
  (data[i0]?).map (fun v => v + 22)

/-- `TokenParser.rdx` (`utils.py` lines 68-97), translated assignment by
assignment; the argument `p2` is overwritten before it is ever read,
exactly as `w2c_p2` is in the source. -/
def rdx? (p0 p1 p2 : Nat) : Option Nat :=
  let i0 := p1
  let i0 := i0 / 100
  let i0 := i0 % 10
  let i1 := p1
  let i1 := i1 / 10
  let p0 := i1
  let i1 := i1 % 10
  let i0 := i0 + i1
  let p2 := i0
  let i1 := p2
  let i2 := p1
  let i3 := p0
  let i3 := i3 * 10
  let i2 := i2 - i3
  let i1 := i1 + i2
  let i1 := i1 <<< (2 &&& 31)
  (data[i1]?).map (fun v => i0 + v + 22)

/-- The fields of the authentication response consumed by
`TokenParser.parse`. -/
structure AuthResponse where
  salt1 : Nat
  salt2 : Nat
  salt3 : Nat
  salt4 : Nat
  accessToken : List Char
  refreshToken : List Char

/-- Python `token[0:n] + token[n + 1 : l] + token[l + 1 :]`
(`utils.py` lines 138-139). -/
def spliceToken (token : List Char) (n l : Nat) : List Char :=
  token.take n ++ (token.take l).drop (n + 1) ++ token.drop (l + 1)

/-- `TokenParser.parse` (`utils.py` lines 128-141): derive the four
removal indices from the salts and splice both padded tokens. -/
def parse (response : AuthResponse) : Option (List Char × List Char) :=
  match cdx? response.salt1 response.salt2, cdx? response.salt2 response.salt1,
      rdx? response.salt1 response.salt2 response.salt4,
      rdx? response.salt2 response.salt1 response.salt3 with
  | some n, some i, some l, some r =>
      some (spliceToken response.accessToken n l, spliceToken response.refreshToken i r)
  | _, _, _, _ => none

/-- The arithmetic claimed for `cdx` by the specification, written from
the spec words alone (for comparison with `cdx?` above): `i0 = (p1 //
10) % 10`, then `i1 = p1 - i0 * 10`, add `(p1 // 100) % 10`, shift left
by 2, look up the table, add 22. -/
def cdxClaimed (p0 p1 : Nat) : Option Nat :=
  let i0 := (p1 / 10) % 10
  let i1 := p1 - i0 * 10
  let total := i0 + i1 + (p1 / 100) % 10
  (data[total <<< 2]?).map (fun v => v + 22)

end TokenParser

namespace NEPSE

/-- One floorsheet trade record, with the fields `NEPSE._get_floorsheet`
reads (`nepse.py` lines 305-313). -/
structure TradeRecord where
  buyerMemberId : String
  buyerBrokerName : String
  sellerMemberId : String
  sellerBrokerName : String
  contractQuantity : Nat
deriving DecidableEq

/-- The broker key `"%s - %s" % (memberId, brokerName)` for the buy side. -/
def buyerId (r : TradeRecord) : String :=
  r.buyerMemberId ++ " - " ++ r.buyerBrokerName

/-- The broker key `"%s - %s" % (memberId, brokerName)` for the sell side. -/
def sellerId (r : TradeRecord) : String :=
  r.sellerMemberId ++ " - " ++ r.sellerBrokerName

/-- The per-record dict update of `_get_floorsheet` (lines 314-323): if
the broker key is present add the quantity to it, otherwise insert it
with quantity `0` and then add.  A Python dict is modeled as an
insertion-ordered association list with unique keys, updated at the
first occurrence. -/
def addQty : List (String × Nat) → String → Nat → List (String × Nat)
  | [], k, q => [(k, q)]
  | (k', v) :: rest, k, q =>
      if k' = k then (k', v + q) :: rest else (k', v) :: addQty rest k q

/-- The accumulation pass of `_get_floorsheet` (lines 305-323): fold
the records into the buy-side and sell-side quantity maps. -/
def buildMaps (recs : List TradeRecord) : List (String × Nat) × List (String × Nat) :=
  recs.foldl
    (fun m r =>
      (addQty m.1 (buyerId r) r.contractQuantity,
       addQty m.2 (sellerId r) r.contractQuantity))
    ([], [])

/-- A broker aggregate entry `{"quantity": ..., "percent": ...}`.
Python computes `percent = round(quantity * 100 / total_quantity, 2)`
in IEEE floating point; it is modeled as the exact rational without the
two-decimal rounding — no claim constrains the percent value. -/
structure BrokerTotal where
  quantity : Nat
  percent : Rat
deriving DecidableEq

/-- The normalization pass of `_get_floorsheet` (lines 325-328):
attach the percentage share to every broker entry. -/
def attachPercent (m : List (String × Nat)) (total_quantity : Nat) :
    List (String × BrokerTotal) :=
  m.map (fun p => (p.1, ⟨p.2, (p.2 : Rat) * 100 / (total_quantity : Rat)⟩))

/-- Python `l[:n]` for an arbitrary integer `n` (negative bounds count
from the end; slicing clamps). -/
def pyTakeTo {α : Type} (l : List α) (n : Int) : List α :=
  if n < 0 then l.take ((l.length : Int) + n).toNat else l.take n.toNat

/-- `NEPSE._get_sorted_list` (`nepse.py` lines 212-215):
`sorted(data.items(), key=lambda x: x[1]["quantity"], reverse=True)`
(a stable sort, modeled by `List.mergeSort` on the flipped comparison),
then `sorted_data[:top_n] if top_n else sorted_data` — note that the
Python truthiness test makes both `None` and `0` yield the full list. -/
def getSortedList (d : List (String × BrokerTotal)) (top_n : Option Int) :
    List (String × BrokerTotal) :=
  let sorted_data := d.mergeSort (fun a b => decide (b.2.quantity ≤ a.2.quantity))
  match top_n with
  | some n => if n ≠ 0 then pyTakeTo sorted_data n else sorted_data
  | none => sorted_data

/-- The pure tail of `NEPSE._get_floorsheet` (lines 303-331): given the
accumulated records and the server-reported `totalQty`, build both
maps, attach percentages, and rank each side (`({}, {})` when no
records were accumulated). -/
def getFloorsheetAgg (recs : List TradeRecord) (total_quantity : Nat)
    (top_n : Option Int) :
    List (String × BrokerTotal) × List (String × BrokerTotal) :=
  if recs.length > 0 then
    let m := buildMaps recs
    let top_buy := attachPercent m.1 total_quantity
    let top_sell := attachPercent m.2 total_quantity
    (getSortedList top_buy top_n, getSortedList top_sell top_n)
  else ([], [])

/-- Sum of the `quantity` fields of a ranked list. -/
def sumQuantities (l : List (String × BrokerTotal)) : Nat :=
  (l.map (fun p => p.2.quantity)).sum

/-- Quantity recorded for broker `b` in a ranked list (`0` if absent). -/
def qtyOf (l : List (String × BrokerTotal)) (b : String) : Nat :=
  ((l.find? (fun p => p.1 == b)).map (fun p => p.2.quantity)).getD 0

/-- One page of the paginated floorsheet response
(`response_json["floorsheets"]`): its `content`, `last` and `empty`
fields, read at `nepse.py` lines 296-299.  The per-page `totalQty`
feeds only the percentage normalization and is carried separately as
the `total_quantity` argument of `getFloorsheetAgg`. -/
structure FloorsheetPage where
  content : List TradeRecord
  last : Bool
  empty : Bool
deriving DecidableEq

/-- The records a page contributes: `if not floorsheet["empty"]:
floorsheet_data.extend(floorsheet["content"])` (lines 298-299). -/
def pageContent (p : FloorsheetPage) : List TradeRecord :=
  if p.empty then [] else p.content

/-- The pagination loop of `_get_floorsheet` (lines 265-302) run
against a stub sequence of page responses: poll pages at increasing
indices, append each polled page's non-empty content, stop after the
first page reporting `last = true`.  Returns the accumulated records
and the number of pages polled. -/
def fetchLoop : List FloorsheetPage → List TradeRecord × Nat
  | [] => ([], 0)
  | p :: rest =>
      if p.last then (pageContent p, 1)
      else (pageContent p ++ (fetchLoop rest).1, (fetchLoop rest).2 + 1)

/-- The environment a guarded floorsheet operation runs against: the
calendar data consulted by `_check_date_sector` (`date.weekday()`,
`datetime.today()`, the loaded holiday list) and, per requested day,
the records and server `totalQty` that pagination would accumulate.
Days are identified by integer timestamps of their parsed midnight. -/
structure FSEnv where
  weekday : Int → Nat
  today : Int
  holiday : Int → Bool
  records : Int → List TradeRecord
  totalQty : Int → Nat

/-- The date condition of `_check_date_sector` (`nepse.py` line 77):
`date.weekday() in [4, 5] or date > datetime.today() or date_string in
self._holidays`. -/
def dateBlocked (env : FSEnv) (d : Int) : Bool :=
  (env.weekday d == 4 || env.weekday d == 5) || decide (env.today < d) || env.holiday d

/-- The `_check_date_sector` wrapper (`nepse.py` lines 59-84) around a
guarded operation `func`, which reports its result (`none` for a falsy
value) together with the number of network requests it issued.  The
sector-existence pre-check (lines 71-75, for integer arguments only)
and the date check both short-circuit without calling `func`; neither
issues a network request. -/
def checkDateSector {α : Type} (env : FSEnv) (sector_missing : Bool) (d : Int)
    (func : Unit → Option α × Nat) : Option α × Nat :=
  if sector_missing then (none, 0)
  else if dateBlocked env d then (none, 0)
  else func ()

/-- `_get_floorsheet` for one day under an environment: `none` when the
`_check_date_sector` wrapper short-circuits on the date, otherwise the
ranked buy/sell aggregation of that day's accumulated records. -/
def getFloorsheetDay (env : FSEnv) (d : Int) (top_n : Option Int) :
    Option (List (String × BrokerTotal) × List (String × BrokerTotal)) :=
  if dateBlocked env d then none
  else some (getFloorsheetAgg (env.records d) (env.totalQty d) top_n)

/-- `NEPSE._get_date_range` (`nepse.py` lines 357-361):
`[start_date + timedelta(days=x) for x in range((end_date - start_date).days + 1)]`. -/
def dateRange (start_date end_date : Int) : List Int :=
  (List.range (end_date - start_date + 1).toNat).map (fun x : Nat => start_date + (x : Int))

/-- The buy-side fold of `_get_floorsheet_by_range` (lines 375-380):
add to `final_data[broker]["buy"]`, inserting `{"buy": 0, "sell": 0}`
on `KeyError`.  Entries are `(broker, (buy, sell))`. -/
def addBuyRange : List (String × Nat × Nat) → String → Nat → List (String × Nat × Nat)
  | [], k, q => [(k, (q, 0))]
  | (k', bs) :: rest, k, q =>
      if k' = k then (k', (bs.1 + q, bs.2)) :: rest
      else (k', bs) :: addBuyRange rest k q

/-- The sell-side fold of `_get_floorsheet_by_range` (lines 381-386). -/
def addSellRange : List (String × Nat × Nat) → String → Nat → List (String × Nat × Nat)
  | [], k, q => [(k, (0, q))]
  | (k', bs) :: rest, k, q =>
      if k' = k then (k', (bs.1, bs.2 + q)) :: rest
      else (k', bs) :: addSellRange rest k q

/-- Fold a day's buy-side ranked list into the running range totals. -/
def foldBuys (fd : List (String × Nat × Nat)) (tb : List (String × BrokerTotal)) :
    List (String × Nat × Nat) :=
  tb.foldl (fun fd p => addBuyRange fd p.1 p.2.quantity) fd

/-- Fold a day's sell-side ranked list into the running range totals. -/
def foldSells (fd : List (String × Nat × Nat)) (ts : List (String × BrokerTotal)) :
    List (String × Nat × Nat) :=
  ts.foldl (fun fd p => addSellRange fd p.1 p.2.quantity) fd

/-- One iteration of the loop in `_get_floorsheet_by_range` (lines
371-386): fetch the day unbounded (`top_n=None`); if the wrapper
returned a result, fold its buy and sell sides into the totals. -/
def rangeStep (env : FSEnv) (fd : List (String × Nat × Nat)) (d : Int) :
    List (String × Nat × Nat) :=
  match getFloorsheetDay env d none with
  | some fs => foldSells (foldBuys fd fs.1) fs.2
  | none => fd

/-- `NEPSE._get_floorsheet_by_range` (`nepse.py` lines 363-387). -/
def getFloorsheetByRange (env : FSEnv) (start_date end_date : Int) :
    List (String × Nat × Nat) :=
  (dateRange start_date end_date).foldl (rangeStep env) []

/-- Buy total recorded for broker `b` in range totals (`0` if absent). -/
def buyOf (fd : List (String × Nat × Nat)) (b : String) : Nat :=
  ((fd.find? (fun p => p.1 == b)).map (fun p => p.2.1)).getD 0

/-- Sell total recorded for broker `b` in range totals (`0` if absent). -/
def sellOf (fd : List (String × Nat × Nat)) (b : String) : Nat :=
  ((fd.find? (fun p => p.1 == b)).map (fun p => p.2.2)).getD 0

/-- The held token pair (`NEPSE._jwt_tokens`). -/
structure TokenPairM where
  accessToken : String
  refreshToken : String

/-- The slice of an HTTP request the response hook touches: its
`authorization` header. -/
structure HttpRequestM where
  authorization : String

/-- The slice of a `requests.Response` the hook touches: status code,
originating request, and history (statuses of prior responses). -/
structure HttpResponseM where
  status_code : Nat
  request : HttpRequestM
  history : List Nat

/-- The `status_forcelist` of the transport-level `Retry` configured in
`NEPSE._create_session` (`nepse.py` line 88): these statuses are
retried up to 3 times by urllib3, with the original (stale) headers,
before any response hook runs. -/
def retryStatusForcelist : List Nat := [401, 413, 429, 502, 503, 504]

/-- `NEPSE._check_response` (`nepse.py` lines 94-100), the response
hook: on a 401, refresh the token pair, overwrite the authorization
header of the already-completed request object, append to the response
history, and return the same response.  No request is re-issued
anywhere in the hook.  Returns the new token state and the response
handed back to the caller. -/
def checkResponse (refreshFn : TokenPairM → TokenPairM) (tokens : TokenPairM)
    (response : HttpResponseM) : TokenPairM × HttpResponseM :=
  if response.status_code == 401 then
    let tokens' := refreshFn tokens
    (tokens',
      { response with
        request := { response.request with
          authorization := "Salter " ++ tokens'.accessToken },
        history := response.history ++ [response.status_code] })
  else (tokens, response)

end NEPSE

/-! ## Token codec theorems -/

namespace TokenParser

/-- The index `cdx?` looks up is always inside the 157-entry table, so
the lookup always succeeds. -/
theorem cdx?_eq_some (p0 p1 : Nat) :
    cdx? p0 p1 =
      some (data.get
        ⟨(p1 / 10 % 10 + (p1 - p1 / 10 * 10) + p1 / 100 % 10) * 4, by
          have h1 : p1 / 10 % 10 < 10 := Nat.mod_lt _ (by omega)
          have h2 : p1 / 100 % 10 < 10 := Nat.mod_lt _ (by omega)
          have h3 : p1 - p1 / 10 * 10 < 10 := by omega
          show _ < data.length
          have : data.length = 157 := rfl
          omega⟩ + 22) := by
  show (data[(p1 / 10 % 10 + (p1 - p1 / 10 * 10) + p1 / 100 % 10) <<< 2]?).map
      (fun v => v + 22) = _
  have hsh : (p1 / 10 % 10 + (p1 - p1 / 10 * 10) + p1 / 100 % 10) <<< 2
      = (p1 / 10 % 10 + (p1 - p1 / 10 * 10) + p1 / 100 % 10) * 4 := by
    rw [Nat.shiftLeft_eq]
  rw [hsh, List.getElem?_eq_getElem]
  rfl

/-- The index `rdx?` looks up is always inside the table, so the lookup
always succeeds. -/
theorem rdx?_eq_some (p0 p1 p2 : Nat) :
    rdx? p0 p1 p2 =
      some (p1 / 100 % 10 + p1 / 10 % 10 +
        data.get
        ⟨(p1 / 100 % 10 + p1 / 10 % 10 + (p1 - p1 / 10 * 10)) * 4, by
          have h1 : p1 / 10 % 10 < 10 := Nat.mod_lt _ (by omega)
          have h2 : p1 / 100 % 10 < 10 := Nat.mod_lt _ (by omega)
          have h3 : p1 - p1 / 10 * 10 < 10 := by omega
          show _ < data.length
          have : data.length = 157 := rfl
          omega⟩ + 22) := by
  show (data[(p1 / 100 % 10 + p1 / 10 % 10 + (p1 - p1 / 10 * 10)) <<< 2]?).map
      (fun v => p1 / 100 % 10 + p1 / 10 % 10 + v + 22) = _
  have hsh : (p1 / 100 % 10 + p1 / 10 % 10 + (p1 - p1 / 10 * 10)) <<< 2
      = (p1 / 100 % 10 + p1 / 10 % 10 + (p1 - p1 / 10 * 10)) * 4 := by
    rw [Nat.shiftLeft_eq]
  rw [hsh, List.getElem?_eq_getElem]
  rfl

/-- C1: `TokenParser.parse` returns the access token spliced as
`accessToken[0:n] + accessToken[n+1:l] + accessToken[l+1:]` and the
refresh token spliced as `refreshToken[0:i] + refreshToken[i+1:r] +
refreshToken[r+1:]`, where `n = cdx(salt1, salt2)`,
`i = cdx(salt2, salt1)`, `l = rdx(salt1, salt2, salt4)` and
`r = rdx(salt2, salt1, salt3)`. -/
theorem parse_splices (resp : AuthResponse) (n i l r : Nat)
    (h1 : cdx? resp.salt1 resp.salt2 = some n)
    (h2 : cdx? resp.salt2 resp.salt1 = some i)
    (h3 : rdx? resp.salt1 resp.salt2 resp.salt4 = some l)
    (h4 : rdx? resp.salt2 resp.salt1 resp.salt3 = some r) :
    parse resp =
      some (resp.accessToken.take n ++ (resp.accessToken.take l).drop (n + 1)
              ++ resp.accessToken.drop (l + 1),
            resp.refreshToken.take i ++ (resp.refreshToken.take r).drop (i + 1)
              ++ resp.refreshToken.drop (r + 1)) := by
  unfold parse
  rw [h1, h2, h3, h4]
  rfl

/-- Witness for C1 at a concrete response: all four salts `1` give
removal indices `n = i = l = r = 30`, and the two-character tokens are
returned whole (the spliced ranges clamp to nothing). -/
theorem parse_splices_witness :
    parse ⟨1, 1, 1, 1, ['a', 'b'], ['c', 'd']⟩ = some (['a', 'b'], ['c', 'd']) := by
  have h := parse_splices ⟨1, 1, 1, 1, ['a', 'b'], ['c', 'd']⟩ 30 30 30 30
    (by decide) (by decide) (by decide) (by decide)
  rw [h]
  decide

/-- C2 counterexample: at `p1 = 100` the specification's arithmetic
(`i1 = p1 - i0 * 10` with the already-reduced `i0 = (p1 // 10) % 10`)
produces table index `(0 + 100 + 1) << 2 = 404`, outside the table, so
its lookup fails, while the code (which subtracts `10 * (p1 // 10)`
using the unreduced quotient) returns `30`. -/
theorem cdx_claim_counterexample : cdx? 0 100 ≠ cdxClaimed 0 100 := by decide

/-- C2 amended: `cdx(p0, p1)` equals the floor-division/modulo
arithmetic of the claim with `i1 = p1 - (p1 // 10) * 10` computed from
the unreduced quotient `p1 // 10` (that is, `i1 = p1 % 10`), not from
the reduced `i0`: add `i0 = (p1 // 10) % 10`, `i1`, and
`(p1 // 100) % 10`, shift the total left by 2, look the index up in the
static table and add 22 — for every first argument `p0`. -/
theorem cdx_arithmetic (p0 p1 : Nat) :
    cdx? p0 p1 =
      (data[(p1 / 10 % 10 + (p1 - p1 / 10 * 10) + p1 / 100 % 10) <<< 2]?).map
        (fun v => v + 22) := by
  rfl

/-- C9 counterexample: with all four salts `1` the derived removal
indices are `30`, far beyond the 3-character padded tokens, yet `parse`
signals nothing: it silently returns the clamped splice (here the
tokens unchanged).  No decode error exists anywhere in the code. -/
theorem parse_oob_counterexample :
    cdx? 1 1 = some 30 ∧ (['a', 'b', 'c'] : List Char).length < 30 ∧
      parse ⟨1, 1, 1, 1, ['a', 'b', 'c'], ['a', 'b', 'c']⟩ =
        some (['a', 'b', 'c'], ['a', 'b', 'c']) := by decide

/-- C9 amended: the decode never signals a malformed-decode error: for
every input — in particular whenever the derived removal indices fall
outside the bounds of the padded token strings — `parse` returns a
spliced token pair, out-of-range indices being silently clamped by
Python slice semantics. -/
theorem parse_never_fails (resp : AuthResponse) : (parse resp).isSome := by
  unfold parse
  rw [cdx?_eq_some resp.salt1 resp.salt2, cdx?_eq_some resp.salt2 resp.salt1,
    rdx?_eq_some resp.salt1 resp.salt2 resp.salt4,
    rdx?_eq_some resp.salt2 resp.salt1 resp.salt3]
  rfl

/-- C10: both obfuscation functions depend only on their second
argument: the first argument of `cdx` and the first and third arguments
of `rdx` are overwritten before ever being read. -/
theorem cdx_rdx_depend_only_on_second (a aBis b c cBis : Nat) :
    cdx? a b = cdx? aBis b ∧ rdx? a b c = rdx? aBis b cBis :=
  ⟨rfl, rfl⟩

end TokenParser

/-! ## Ranking theorems -/

namespace NEPSE

/-- The comparison `_get_sorted_list` sorts with: descending quantity. -/
def qGE (a b : String × BrokerTotal) : Bool :=
  decide (b.2.quantity ≤ a.2.quantity)

theorem qGE_trans (a b c : String × BrokerTotal) :
    qGE a b = true → qGE b c = true → qGE a c = true := by
  simp only [qGE, decide_eq_true_eq]
  omega

theorem qGE_total (a b : String × BrokerTotal) : (qGE a b || qGE b a) = true := by
  simp only [qGE, Bool.or_eq_true, decide_eq_true_eq]
  omega

theorem getSortedList_none (d : List (String × BrokerTotal)) :
    getSortedList d none = d.mergeSort qGE := rfl

/-- C4 counterexample: with `topN = 0` (a Python-falsy value, treated
like `None` by `sorted_data[:top_n] if top_n else sorted_data`) the
code returns the full sorted list, not the claimed truncation to the
first `0` entries, which would be `[]`. -/
theorem getSortedList_zero_counterexample :
    getSortedList [("a", ⟨5, 0⟩)] (some 0) = [("a", ⟨5, 0⟩)] ∧
      ([("a", (⟨5, 0⟩ : BrokerTotal))] : List (String × BrokerTotal)) ≠ [] := by
  refine ⟨?_, by simp⟩
  simp [getSortedList]

/-- C4 amended: for every broker-aggregate map the ranked list is the
map's entries sorted by descending quantity, ties between equal
quantities kept in their original iteration order (stable sort);
a positive `topN` truncates it to the first `topN` entries, while
`topN = None` (absent) — and also the Python-falsy `topN = 0` — return
the full sorted list. -/
theorem getSortedList_ranked (d : List (String × BrokerTotal)) :
    (getSortedList d none).Pairwise (fun a b => b.2.quantity ≤ a.2.quantity)
    ∧ (getSortedList d none).Perm d
    ∧ (∀ q : Nat, (getSortedList d none).filter (fun x => x.2.quantity == q)
        = d.filter (fun x => x.2.quantity == q))
    ∧ (∀ n : Int, 0 < n →
        getSortedList d (some n) = (getSortedList d none).take n.toNat)
    ∧ getSortedList d (some 0) = getSortedList d none := by
  refine ⟨?_, ?_, ?_, ?_, ?_⟩
  · rw [getSortedList_none]
    exact (List.sorted_mergeSort qGE_trans qGE_total d).imp
      (fun h => by simpa [qGE] using h)
  · rw [getSortedList_none]
    exact List.mergeSort_perm d qGE
  · intro q
    rw [getSortedList_none]
    have hpair : (d.filter (fun x => x.2.quantity == q)).Pairwise
        (fun a b => qGE a b = true) := by
      apply List.pairwise_of_forall_mem_list
      intro a ha b hb
      have ha' : a.2.quantity = q := by
        simpa using (List.mem_filter.mp ha).2
      have hb' : b.2.quantity = q := by
        simpa using (List.mem_filter.mp hb).2
      simp [qGE, ha', hb']
    have hsub := List.sublist_mergeSort qGE_trans qGE_total hpair
      (List.filter_sublist d)
    have hsub2 := hsub.filter (fun x => x.2.quantity == q)
    rw [List.filter_filter] at hsub2
    simp only [Bool.and_self] at hsub2
    have hlen : (List.filter (fun x => x.2.quantity == q) (d.mergeSort qGE)).length
        = (List.filter (fun x => x.2.quantity == q) d).length :=
      ((List.mergeSort_perm d qGE).filter (fun x => x.2.quantity == q)).length_eq
    exact (hsub2.eq_of_length hlen.symm).symm
  · intro n hn
    simp only [getSortedList, pyTakeTo]
    rw [if_pos (by omega : n ≠ 0), if_neg (by omega : ¬ n < 0)]
  · simp [getSortedList]

/-- Witness for C4 at a concrete map and `topN = 1`. -/
theorem getSortedList_ranked_witness :
    getSortedList [("a", ⟨5, 0⟩)] (some 1)
      = (getSortedList [("a", ⟨5, 0⟩)] none).take (1 : Int).toNat :=
  (getSortedList_ranked [("a", ⟨5, 0⟩)]).2.2.2.1 1 (by decide)

/-! ## Aggregation-sum theorems -/

theorem addQty_sum (m : List (String × Nat)) (k : String) (q : Nat) :
    ((addQty m k q).map Prod.snd).sum = (m.map Prod.snd).sum + q := by
  induction m with
  | nil => simp [addQty]
  | cons p rest ih =>
    obtain ⟨kHead, v⟩ := p
    by_cases h : kHead = k <;> simp [addQty, h, ih] <;> omega

theorem buildMaps_sum (recs : List TradeRecord) :
    ((buildMaps recs).1.map Prod.snd).sum
        = (recs.map (fun r => r.contractQuantity)).sum
    ∧ ((buildMaps recs).2.map Prod.snd).sum
        = (recs.map (fun r => r.contractQuantity)).sum := by
  suffices h : ∀ m : List (String × Nat) × List (String × Nat),
      ((recs.foldl
          (fun m r =>
            (addQty m.1 (buyerId r) r.contractQuantity,
             addQty m.2 (sellerId r) r.contractQuantity)) m).1.map Prod.snd).sum
        = (m.1.map Prod.snd).sum + (recs.map (fun r => r.contractQuantity)).sum
      ∧ ((recs.foldl
          (fun m r =>
            (addQty m.1 (buyerId r) r.contractQuantity,
             addQty m.2 (sellerId r) r.contractQuantity)) m).2.map Prod.snd).sum
        = (m.2.map Prod.snd).sum + (recs.map (fun r => r.contractQuantity)).sum by
    simpa [buildMaps] using h ([], [])
  induction recs with
  | nil => simp
  | cons r rest ih =>
    intro m
    simp only [List.foldl_cons, List.map_cons, List.sum_cons]
    have h := ih (addQty m.1 (buyerId r) r.contractQuantity,
                  addQty m.2 (sellerId r) r.contractQuantity)
    rw [h.1, h.2, addQty_sum, addQty_sum]
    omega

theorem sumQuantities_getSortedList_none (l : List (String × BrokerTotal)) :
    sumQuantities (getSortedList l none) = sumQuantities l := by
  unfold sumQuantities
  rw [getSortedList_none]
  exact ((List.mergeSort_perm l qGE).map (fun p => p.2.quantity)).sum_eq

theorem sumQuantities_attachPercent (m : List (String × Nat)) (tq : Nat) :
    sumQuantities (attachPercent m tq) = (m.map Prod.snd).sum := by
  induction m with
  | nil => simp [sumQuantities, attachPercent]
  | cons p rest ih =>
    simp only [sumQuantities, attachPercent, List.map_cons, List.sum_cons] at ih ⊢
    omega

/-- C3 counterexample: a single record of quantity `5` with the server
reporting `totalQty = 7`: the aggregated buy-side quantities sum to
`5`, not to the reported `totalQuantity` — the aggregation never reads
`totalQty` into the quantities (it only feeds the percentages). -/
theorem floorsheet_sums_counterexample :
    sumQuantities (getFloorsheetAgg [⟨"1", "X", "2", "Y", 5⟩] 7 none).1 = 5 ∧
      (5 : Nat) ≠ 7 := by
  refine ⟨?_, by decide⟩
  simp [getFloorsheetAgg, buildMaps, addQty, attachPercent, getSortedList,
    sumQuantities]

/-- C3 amended: for every multiset of trade records and every
server-reported `totalQuantity`, the unbounded (`topN` absent)
single-day aggregation gives buy-side quantities and sell-side
quantities both summing to the records' total contract quantity; in
particular they equal `totalQuantity` exactly when the server report is
consistent with the records. -/
theorem floorsheet_sums (recs : List TradeRecord) (tq : Nat) :
    sumQuantities (getFloorsheetAgg recs tq none).1
        = (recs.map (fun r => r.contractQuantity)).sum
    ∧ sumQuantities (getFloorsheetAgg recs tq none).2
        = (recs.map (fun r => r.contractQuantity)).sum := by
  cases recs with
  | nil => simp [getFloorsheetAgg, sumQuantities]
  | cons r rest =>
    unfold getFloorsheetAgg
    rw [if_pos (by simp : ((r :: rest : List TradeRecord)).length > 0)]
    simp only [sumQuantities_getSortedList_none, sumQuantities_attachPercent]
    exact buildMaps_sum (r :: rest)

/-! ## Pagination theorem -/

/-- C6: if page `k` (counting from 0) is the first page reported with
`last = true`, the floorsheet fetch loop polls exactly the pages `0`
through `k` — `k + 1` polls — and accumulates the concatenation of all
non-empty pages' content in page order. -/
theorem fetchLoop_stops_at_first_last (pages : List FloorsheetPage) (k : Nat)
    (hk : k < pages.length)
    (hlast : (pages.get ⟨k, hk⟩).last = true)
    (hprev : ∀ j (hj : j < k), (pages.get ⟨j, Nat.lt_trans hj hk⟩).last = false) :
    (fetchLoop pages).2 = k + 1
    ∧ (fetchLoop pages).1 = ((pages.take (k + 1)).map pageContent).flatten := by
  induction pages generalizing k with
  | nil => exact absurd hk (by simp)
  | cons p rest ih =>
    cases k with
    | zero =>
      have hp : p.last = true := hlast
      simp [fetchLoop, hp]
    | succ k =>
      have hp : p.last = false := hprev 0 (Nat.succ_pos k)
      have hk' : k < rest.length := Nat.lt_of_succ_lt_succ hk
      have hlast' : (rest.get ⟨k, hk'⟩).last = true := hlast
      have hprev' : ∀ j (hj : j < k),
          (rest.get ⟨j, Nat.lt_trans hj hk'⟩).last = false :=
        fun j hj => hprev (j + 1) (Nat.succ_lt_succ hj)
      have h := ih k hk' hlast' hprev'
      simp [fetchLoop, hp, h.1, h.2]

/-- Witness for C6: the spec's stub — 3 pages with `last = true` only
on the third — is polled exactly 3 times and all 3 pages' content is
concatenated. -/
theorem fetchLoop_stops_at_first_last_witness :
    (fetchLoop
        [⟨[⟨"1", "X", "2", "Y", 5⟩], false, false⟩,
         ⟨[⟨"3", "Z", "4", "W", 7⟩], false, false⟩,
         ⟨[⟨"5", "V", "6", "U", 9⟩], true, false⟩]).2 = 3
    ∧ (fetchLoop
        [⟨[⟨"1", "X", "2", "Y", 5⟩], false, false⟩,
         ⟨[⟨"3", "Z", "4", "W", 7⟩], false, false⟩,
         ⟨[⟨"5", "V", "6", "U", 9⟩], true, false⟩]).1 =
      [⟨"1", "X", "2", "Y", 5⟩, ⟨"3", "Z", "4", "W", 7⟩, ⟨"5", "V", "6", "U", 9⟩] := by
  have h := fetchLoop_stops_at_first_last
    [⟨[⟨"1", "X", "2", "Y", 5⟩], false, false⟩,
     ⟨[⟨"3", "Z", "4", "W", 7⟩], false, false⟩,
     ⟨[⟨"5", "V", "6", "U", 9⟩], true, false⟩] 2 (by decide) (by decide) (by decide)
  exact ⟨h.1, by rw [h.2]; decide⟩

/-! ## Date-guard theorem -/

/-- C7: for every requested date that is a Friday (`weekday = 4`), a
Saturday (`weekday = 5`), strictly in the future, or a loaded holiday,
every guarded floorsheet operation — the `_check_date_sector` wrapper
applied to any security-level or sector-level body `func` — returns the
no-data result without calling `func`, hence with zero network
requests: the date checks run before any network call. -/
theorem guard_short_circuits {α : Type} (env : FSEnv) (sector_missing : Bool)
    (d : Int) (func : Unit → Option α × Nat)
    (h : env.weekday d = 4 ∨ env.weekday d = 5 ∨ env.today < d ∨ env.holiday d = true) :
    checkDateSector env sector_missing d func = (none, 0) := by
  have hb : dateBlocked env d = true := by
    simp only [dateBlocked, Bool.or_eq_true, beq_iff_eq, decide_eq_true_eq]
    tauto
  by_cases hs : sector_missing <;> simp [checkDateSector, hs, hb]

/-- Witness for C7: a Friday date, with a stub body that would have
issued 7 network requests, yields `(none, 0)`. -/
theorem guard_short_circuits_witness :
    checkDateSector ⟨fun x => 4, 0, fun x => false, fun x => [], fun x => 0⟩
      false 0 (fun x => (some 1, 7)) = (none, 0) :=
  guard_short_circuits _ false 0 _ (Or.inl rfl)

/-! ## Session-gateway theorem -/

/-- C8 (the code as written, contradicting the claim): on a 401
response the hook `_check_response` refreshes the token pair exactly
once and writes the refreshed access token into the authorization
header of the already-completed request object — but it never re-issues
that request: the very same 401 response is handed back to the caller,
whose `raise_for_status` then surfaces the failure.  Moreover `401`
sits in the transport `Retry` forcelist, so urllib3 retries a 401 up to
3 times with the stale token before the hook even runs.  The claimed
single refresh-and-retry with the refreshed token never happens. -/
theorem checkResponse_refreshes_but_never_retries
    (refreshFn : TokenPairM → TokenPairM) (tokens : TokenPairM)
    (req : HttpRequestM) (hist : List Nat) :
    (checkResponse refreshFn tokens ⟨401, req, hist⟩).1 = refreshFn tokens
    ∧ (checkResponse refreshFn tokens ⟨401, req, hist⟩).2.status_code = 401
    ∧ (checkResponse refreshFn tokens ⟨401, req, hist⟩).2.request.authorization
        = "Salter " ++ (refreshFn tokens).accessToken
    ∧ (401 : Nat) ∈ retryStatusForcelist :=
  ⟨rfl, rfl, rfl, by simp [retryStatusForcelist]⟩

/-! ## Range-aggregation theorems -/

theorem buyOf_nil (b : String) : buyOf [] b = 0 := rfl

theorem sellOf_nil (b : String) : sellOf [] b = 0 := rfl

theorem qtyOf_nil (b : String) : qtyOf [] b = 0 := rfl

theorem buyOf_cons (k : String) (b1 b2 : Nat) (rest : List (String × Nat × Nat))
    (b : String) :
    buyOf ((k, (b1, b2)) :: rest) b = if k = b then b1 else buyOf rest b := by
  by_cases h : k = b
  · subst h; simp [buyOf]
  · simp [buyOf, List.find?_cons, h]

theorem sellOf_cons (k : String) (b1 b2 : Nat) (rest : List (String × Nat × Nat))
    (b : String) :
    sellOf ((k, (b1, b2)) :: rest) b = if k = b then b2 else sellOf rest b := by
  by_cases h : k = b
  · subst h; simp [sellOf]
  · simp [sellOf, List.find?_cons, h]

theorem qtyOf_cons (k : String) (v : BrokerTotal) (rest : List (String × BrokerTotal))
    (b : String) :
    qtyOf ((k, v) :: rest) b = if k = b then v.quantity else qtyOf rest b := by
  by_cases h : k = b
  · subst h; simp [qtyOf]
  · simp [qtyOf, List.find?_cons, h]

theorem buyOf_addSellRange (fd : List (String × Nat × Nat)) (k b : String) (q : Nat) :
    buyOf (addSellRange fd k q) b = buyOf fd b := by
  induction fd with
  | nil =>
    rw [show addSellRange [] k q = [(k, (0, q))] from rfl]
    by_cases h : k = b
    · rw [buyOf_cons, if_pos h]; rfl
    · rw [buyOf_cons, if_neg h]
  | cons p rest ih =>
    obtain ⟨kp, b1, b2⟩ := p
    by_cases h : kp = k
    · rw [show addSellRange ((kp, (b1, b2)) :: rest) k q = (kp, (b1, b2 + q)) :: rest from by
        simp [addSellRange, h]]
      rw [buyOf_cons, buyOf_cons]
    · rw [show addSellRange ((kp, (b1, b2)) :: rest) k q
          = (kp, (b1, b2)) :: addSellRange rest k q from by simp [addSellRange, h]]
      rw [buyOf_cons, buyOf_cons, ih]

theorem sellOf_addBuyRange (fd : List (String × Nat × Nat)) (k b : String) (q : Nat) :
    sellOf (addBuyRange fd k q) b = sellOf fd b := by
  induction fd with
  | nil =>
    rw [show addBuyRange [] k q = [(k, (q, 0))] from rfl]
    by_cases h : k = b
    · rw [sellOf_cons, if_pos h]; rfl
    · rw [sellOf_cons, if_neg h]
  | cons p rest ih =>
    obtain ⟨kp, b1, b2⟩ := p
    by_cases h : kp = k
    · rw [show addBuyRange ((kp, (b1, b2)) :: rest) k q = (kp, (b1 + q, b2)) :: rest from by
        simp [addBuyRange, h]]
      rw [sellOf_cons, sellOf_cons]
    · rw [show addBuyRange ((kp, (b1, b2)) :: rest) k q
          = (kp, (b1, b2)) :: addBuyRange rest k q from by simp [addBuyRange, h]]
      rw [sellOf_cons, sellOf_cons, ih]

theorem buyOf_addBuyRange (fd : List (String × Nat × Nat)) (k b : String) (q : Nat) :
    buyOf (addBuyRange fd k q) b = if b = k then buyOf fd b + q else buyOf fd b := by
  induction fd with
  | nil =>
    rw [show addBuyRange [] k q = [(k, (q, 0))] from rfl]
    by_cases h : k = b
    · rw [buyOf_cons, if_pos h, if_pos h.symm, buyOf_nil, Nat.zero_add]
    · rw [buyOf_cons, if_neg h, if_neg (fun e => h e.symm)]
  | cons p rest ih =>
    obtain ⟨kp, b1, b2⟩ := p
    by_cases h : kp = k
    · subst h
      rw [show addBuyRange ((kp, (b1, b2)) :: rest) kp q = (kp, (b1 + q, b2)) :: rest from by
        simp [addBuyRange]]
      rw [buyOf_cons, buyOf_cons]
      by_cases h2 : kp = b
      · rw [if_pos h2, if_pos h2, if_pos h2.symm]
      · rw [if_neg h2, if_neg h2, if_neg (fun e => h2 e.symm)]
    · rw [show addBuyRange ((kp, (b1, b2)) :: rest) k q
          = (kp, (b1, b2)) :: addBuyRange rest k q from by simp [addBuyRange, h]]
      rw [buyOf_cons, buyOf_cons, ih]
      by_cases h2 : kp = b
      · have hbk : ¬ b = k := fun e => h (h2.trans e)
        rw [if_pos h2, if_neg hbk, if_pos h2]
      · rw [if_neg h2, if_neg h2]

theorem sellOf_addSellRange (fd : List (String × Nat × Nat)) (k b : String) (q : Nat) :
    sellOf (addSellRange fd k q) b = if b = k then sellOf fd b + q else sellOf fd b := by
  induction fd with
  | nil =>
    rw [show addSellRange [] k q = [(k, (0, q))] from rfl]
    by_cases h : k = b
    · rw [sellOf_cons, if_pos h, if_pos h.symm, sellOf_nil, Nat.zero_add]
    · rw [sellOf_cons, if_neg h, if_neg (fun e => h e.symm)]
  | cons p rest ih =>
    obtain ⟨kp, b1, b2⟩ := p
    by_cases h : kp = k
    · subst h
      rw [show addSellRange ((kp, (b1, b2)) :: rest) kp q = (kp, (b1, b2 + q)) :: rest from by
        simp [addSellRange]]
      rw [sellOf_cons, sellOf_cons]
      by_cases h2 : kp = b
      · rw [if_pos h2, if_pos h2, if_pos h2.symm]
      · rw [if_neg h2, if_neg h2, if_neg (fun e => h2 e.symm)]
    · rw [show addSellRange ((kp, (b1, b2)) :: rest) k q
          = (kp, (b1, b2)) :: addSellRange rest k q from by simp [addSellRange, h]]
      rw [sellOf_cons, sellOf_cons, ih]
      by_cases h2 : kp = b
      · have hbk : ¬ b = k := fun e => h (h2.trans e)
        rw [if_pos h2, if_neg hbk, if_pos h2]
      · rw [if_neg h2, if_neg h2]

theorem buyOf_foldSells (ts : List (String × BrokerTotal)) :
    ∀ (fd : List (String × Nat × Nat)) (b : String),
      buyOf (foldSells fd ts) b = buyOf fd b := by
  induction ts with
  | nil => intro fd b; rfl
  | cons p rest ih =>
    intro fd b
    rw [show foldSells fd (p :: rest)
        = foldSells (addSellRange fd p.1 p.2.quantity) rest from rfl]
    rw [ih, buyOf_addSellRange]

theorem sellOf_foldBuys (tb : List (String × BrokerTotal)) :
    ∀ (fd : List (String × Nat × Nat)) (b : String),
      sellOf (foldBuys fd tb) b = sellOf fd b := by
  induction tb with
  | nil => intro fd b; rfl
  | cons p rest ih =>
    intro fd b
    rw [show foldBuys fd (p :: rest)
        = foldBuys (addBuyRange fd p.1 p.2.quantity) rest from rfl]
    rw [ih, sellOf_addBuyRange]

theorem qtyOf_eq_zero (l : List (String × BrokerTotal)) (b : String)
    (h : b ∉ l.map Prod.fst) : qtyOf l b = 0 := by
  induction l with
  | nil => rfl
  | cons p rest ih =>
    rw [List.map_cons, List.mem_cons] at h
    push_neg at h
    obtain ⟨kp, v⟩ := p
    rw [qtyOf_cons, if_neg (fun e => h.1 e.symm)]
    exact ih h.2

theorem buyOf_foldBuys (tb : List (String × BrokerTotal)) :
    ∀ (fd : List (String × Nat × Nat)) (b : String),
      (tb.map Prod.fst).Nodup →
      buyOf (foldBuys fd tb) b = buyOf fd b + qtyOf tb b := by
  induction tb with
  | nil => intro fd b _; rw [qtyOf_nil]; rfl
  | cons p rest ih =>
    intro fd b hnd
    obtain ⟨kp, v⟩ := p
    rw [List.map_cons, List.nodup_cons] at hnd
    rw [show foldBuys fd ((kp, v) :: rest)
        = foldBuys (addBuyRange fd kp v.quantity) rest from rfl]
    rw [ih _ b hnd.2, buyOf_addBuyRange, qtyOf_cons]
    by_cases h : b = kp
    · rw [if_pos h, if_pos h.symm,
        qtyOf_eq_zero rest b (by rw [h]; exact hnd.1), Nat.add_zero]
    · rw [if_neg h, if_neg (fun e => h e.symm)]

theorem sellOf_foldSells (ts : List (String × BrokerTotal)) :
    ∀ (fd : List (String × Nat × Nat)) (b : String),
      (ts.map Prod.fst).Nodup →
      sellOf (foldSells fd ts) b = sellOf fd b + qtyOf ts b := by
  induction ts with
  | nil => intro fd b _; rw [qtyOf_nil]; rfl
  | cons p rest ih =>
    intro fd b hnd
    obtain ⟨kp, v⟩ := p
    rw [List.map_cons, List.nodup_cons] at hnd
    rw [show foldSells fd ((kp, v) :: rest)
        = foldSells (addSellRange fd kp v.quantity) rest from rfl]
    rw [ih _ b hnd.2, sellOf_addSellRange, qtyOf_cons]
    by_cases h : b = kp
    · rw [if_pos h, if_pos h.symm,
        qtyOf_eq_zero rest b (by rw [h]; exact hnd.1), Nat.add_zero]
    · rw [if_neg h, if_neg (fun e => h e.symm)]

theorem mem_addQty_keys (m : List (String × Nat)) (k x : String) (q : Nat) :
    x ∈ (addQty m k q).map Prod.fst ↔ x ∈ m.map Prod.fst ∨ x = k := by
  induction m with
  | nil => simp [addQty]
  | cons p rest ih =>
    obtain ⟨kp, v⟩ := p
    by_cases h : kp = k <;> simp [addQty, h, ih] <;> tauto

theorem addQty_keys_nodup (m : List (String × Nat)) (k : String) (q : Nat)
    (h : (m.map Prod.fst).Nodup) : ((addQty m k q).map Prod.fst).Nodup := by
  induction m with
  | nil => simp [addQty]
  | cons p rest ih =>
    obtain ⟨kp, v⟩ := p
    rw [List.map_cons, List.nodup_cons] at h
    by_cases he : kp = k
    · subst he
      rw [show addQty ((kp, v) :: rest) kp q = (kp, v + q) :: rest from by
        simp [addQty]]
      rw [List.map_cons, List.nodup_cons]
      exact ⟨h.1, h.2⟩
    · rw [show addQty ((kp, v) :: rest) k q = (kp, v) :: addQty rest k q from by
        simp [addQty, he]]
      rw [List.map_cons, List.nodup_cons]
      refine ⟨fun hmem => ?_, ih h.2⟩
      rcases (mem_addQty_keys rest k kp q).mp hmem with hm | hm
      · exact h.1 hm
      · exact he hm

theorem buildMaps_keys_nodup (recs : List TradeRecord) :
    ((buildMaps recs).1.map Prod.fst).Nodup
    ∧ ((buildMaps recs).2.map Prod.fst).Nodup := by
  suffices h : ∀ m : List (String × Nat) × List (String × Nat),
      (m.1.map Prod.fst).Nodup → (m.2.map Prod.fst).Nodup →
      (((recs.foldl
          (fun m r =>
            (addQty m.1 (buyerId r) r.contractQuantity,
             addQty m.2 (sellerId r) r.contractQuantity)) m).1.map Prod.fst).Nodup
      ∧ ((recs.foldl
          (fun m r =>
            (addQty m.1 (buyerId r) r.contractQuantity,
             addQty m.2 (sellerId r) r.contractQuantity)) m).2.map Prod.fst).Nodup) by
    simpa [buildMaps] using h ([], []) (by simp) (by simp)
  induction recs with
  | nil => intro m h1 h2; exact ⟨h1, h2⟩
  | cons r rest ih =>
    intro m h1 h2
    exact ih (addQty m.1 (buyerId r) r.contractQuantity,
              addQty m.2 (sellerId r) r.contractQuantity)
      (addQty_keys_nodup _ _ _ h1) (addQty_keys_nodup _ _ _ h2)

theorem attachPercent_keys (m : List (String × Nat)) (tq : Nat) :
    (attachPercent m tq).map Prod.fst = m.map Prod.fst := by
  induction m with
  | nil => rfl
  | cons p rest ih =>
    simp only [attachPercent, List.map_cons] at ih ⊢
    rw [ih]

theorem getSortedList_keys_nodup (l : List (String × BrokerTotal))
    (h : (l.map Prod.fst).Nodup) :
    ((getSortedList l none).map Prod.fst).Nodup := by
  rw [getSortedList_none]
  exact ((List.mergeSort_perm l qGE).map Prod.fst).nodup_iff.mpr h

theorem getFloorsheetAgg_keys_nodup (recs : List TradeRecord) (tq : Nat) :
    ((getFloorsheetAgg recs tq none).1.map Prod.fst).Nodup
    ∧ ((getFloorsheetAgg recs tq none).2.map Prod.fst).Nodup := by
  unfold getFloorsheetAgg
  by_cases h : recs.length > 0
  · rw [if_pos h]
    exact ⟨getSortedList_keys_nodup _ (by
        rw [attachPercent_keys]; exact (buildMaps_keys_nodup recs).1),
      getSortedList_keys_nodup _ (by
        rw [attachPercent_keys]; exact (buildMaps_keys_nodup recs).2)⟩
  · rw [if_neg h]
    simp


/-- C5: for every environment and every date `d` passing the trading-day
guard, the range aggregation over the single-day range `[d, d]` gives
every broker a buy total equal to its buy-side quantity and a sell
total equal to its sell-side quantity in the unbounded single-day
aggregation for `d`; the range iteration enumerates every calendar day
in `[start_date, end_date]` inclusive; and a day failing the guard
leaves the accumulated totals unchanged (zero contribution, no error). -/
theorem range_single_day (env : FSEnv) (d : Int)
    (h : dateBlocked env d = false) :
    (∀ b : String,
        buyOf (getFloorsheetByRange env d d) b
          = qtyOf (getFloorsheetAgg (env.records d) (env.totalQty d) none).1 b
        ∧ sellOf (getFloorsheetByRange env d d) b
          = qtyOf (getFloorsheetAgg (env.records d) (env.totalQty d) none).2 b)
    ∧ (∀ d1 d2 x : Int, x ∈ dateRange d1 d2 ↔ d1 ≤ x ∧ x ≤ d2)
    ∧ (∀ (fd : List (String × Nat × Nat)) (dBad : Int),
        dateBlocked env dBad = true → rangeStep env fd dBad = fd) := by
  refine ⟨fun b => ?_, fun d1 d2 x => ?_, fun fd dBad hb => ?_⟩
  · have hone : (d - d + 1).toNat = 1 := by omega
    have hrange : dateRange d d = [d] := by
      rw [dateRange, hone, show List.range 1 = [0] from rfl]
      simp
    have hsingle : getFloorsheetByRange env d d = rangeStep env [] d := by
      rw [getFloorsheetByRange, hrange]
      rfl
    have hday : getFloorsheetDay env d none
        = some (getFloorsheetAgg (env.records d) (env.totalQty d) none) := by
      simp [getFloorsheetDay, h]
    have hstep : rangeStep env [] d
        = foldSells
            (foldBuys [] (getFloorsheetAgg (env.records d) (env.totalQty d) none).1)
            (getFloorsheetAgg (env.records d) (env.totalQty d) none).2 := by
      rw [rangeStep, hday]
    have hnd := getFloorsheetAgg_keys_nodup (env.records d) (env.totalQty d)
    rw [hsingle, hstep]
    constructor
    · rw [buyOf_foldSells, buyOf_foldBuys _ _ _ hnd.1, buyOf_nil, Nat.zero_add]
    · rw [sellOf_foldSells _ _ _ hnd.2, sellOf_foldBuys, sellOf_nil, Nat.zero_add]
  · rw [dateRange]
    simp only [List.mem_map, List.mem_range]
    constructor
    · rintro ⟨k, hk, rfl⟩
      omega
    · rintro ⟨h1, h2⟩
      exact ⟨(x - d1).toNat, by omega, by omega⟩
  · simp [rangeStep, getFloorsheetDay, hb]

/-- The concrete environment used by the witness for C5: every day has
weekday 0, today is day 10, no holidays, and each day carries one trade
of quantity 5. -/
def envW : FSEnv :=
  ⟨fun x => 0, 10, fun x => false, fun x => [⟨"1", "X", "2", "Y", 5⟩], fun x => 5⟩

/-- Witness for C5 at the concrete environment `envW`, day `0`, broker
`"1 - X"`. -/
theorem range_single_day_witness :
    buyOf (getFloorsheetByRange envW 0 0) "1 - X"
      = qtyOf (getFloorsheetAgg (envW.records 0) (envW.totalQty 0) none).1 "1 - X" :=
  ((range_single_day envW 0 rfl).1 "1 - X").1

end NEPSE

end NepseAnalysis
